import Mathlib

/-!
Verification of the trading-strategy core of this repository: the Williams
fractal signal generator (`williams_fractal_trading_simulator.py`) and the
backtest engine (`simple_backtester.py`), together with the indicator
computations they consume (`data_manager.get_ema_close`, `mark_fractals`).

Numbers: the Python code computes with IEEE floats; we model its arithmetic
exactly over rationals, represented as integer numerator/denominator pairs
(`Q` below).  All constructed values keep a positive denominator, and
comparisons are by cross multiplication, so `Q` faithfully mirrors exact real
arithmetic on every value the programs build.
-/

/-- Exact rational numbers as unnormalized numerator/denominator pairs.
All values built by the embedded programs keep `den > 0`. -/
structure Q where
  num : Int
  den : Int
  deriving DecidableEq, Repr

def Q.ofInt (n : Int) : Q := ⟨n, 1⟩

def qzero : Q := ⟨0, 1⟩

def Q.add (a b : Q) : Q := ⟨a.num * b.den + b.num * a.den, a.den * b.den⟩

def Q.sub (a b : Q) : Q := ⟨a.num * b.den - b.num * a.den, a.den * b.den⟩

def Q.mul (a b : Q) : Q := ⟨a.num * b.num, a.den * b.den⟩

/-- Division, keeping the denominator positive when both operands have
positive denominators. -/
def Q.div (a b : Q) : Q :=
  if b.num < 0 then ⟨a.num * (-b.den), a.den * (-b.num)⟩
  else ⟨a.num * b.den, a.den * b.num⟩

def Q.abs (a : Q) : Q := ⟨(a.num.natAbs : Int), a.den⟩

/-- Strict order by cross multiplication (valid for positive denominators). -/
def Q.lt (a b : Q) : Bool := a.num * b.den < b.num * a.den

def Q.le (a b : Q) : Bool := a.num * b.den ≤ b.num * a.den

/-- Value equality of two rational pairs (cross multiplication). -/
def Q.Eqv (a b : Q) : Prop := a.num * b.den = b.num * a.den

instance (a b : Q) : Decidable (Q.Eqv a b) := by
  unfold Q.Eqv; infer_instance

/-! ### Indicator computations (`data_manager.py` and `mark_fractals`) -/

/-- Embedding of `get_ema_close` from `data_manager.py`: pandas
`Series(close).ewm(span=window).mean()` with the default `adjust=True`,
i.e. row `t` holds `Σ_{j≤t} (1-α)^j · x_{t-j} / Σ_{j≤t} (1-α)^j`
with `α = 2/(window+1)`, computed by the recurrences
`num_t = x_t + (1-α)·num_{t-1}`, `den_t = 1 + (1-α)·den_{t-1}`. -/
def get_ema_close (closes : List Q) (window : Nat) : List Q :=
  let a : Q := Q.div (Q.ofInt 2) (Q.ofInt ((window : Int) + 1))
  let om : Q := Q.sub (Q.ofInt 1) a
  (closes.foldl (fun acc x =>
     let n := Q.add x (Q.mul om acc.2.1)
     let d := Q.add (Q.ofInt 1) (Q.mul om acc.2.2)
     (acc.1 ++ [Q.div n d], n, d)) (([] : List Q), qzero, qzero)).1

/-- Embedding of `mark_fractals` from `williams_fractal_trading_simulator.py`: for each
loop index `i ∈ [5, len)` the row `k = i-3` is marked bullish when its low is
strictly below the lows two rows on each side, and bearish when its high is
strictly above the highs two rows on each side.  Equivalently row `k` is
marked iff `2 ≤ k` and `k + 4 ≤ len` and the four strict comparisons hold. -/
def mark_fractals (low high : List Q) : List (Option Q) × List (Option Q) :=
  ((List.range low.length).map (fun k =>
      if (decide (2 ≤ k) && decide (k + 4 ≤ low.length)
          && Q.lt (low.getD k qzero) (low.getD (k - 2) qzero)
          && Q.lt (low.getD k qzero) (low.getD (k - 1) qzero)
          && Q.lt (low.getD k qzero) (low.getD (k + 1) qzero)
          && Q.lt (low.getD k qzero) (low.getD (k + 2) qzero)) = true
      then some (low.getD k qzero) else none),
   (List.range high.length).map (fun k =>
      if (decide (2 ≤ k) && decide (k + 4 ≤ high.length)
          && Q.lt (high.getD (k - 2) qzero) (high.getD k qzero)
          && Q.lt (high.getD (k - 1) qzero) (high.getD k qzero)
          && Q.lt (high.getD (k + 1) qzero) (high.getD k qzero)
          && Q.lt (high.getD (k + 2) qzero) (high.getD k qzero)) = true
      then some (high.getD k qzero) else none))

/-! ### The indicator frame consumed by `simulate_trades` -/

/-- The DataFrame consumed by `simulate_trades`: candles plus the three EMA
columns and the (nullable) bullish fractal column.  `bear` is computed by the
script but never read by the generator. -/
structure IndicatorFrame where
  Time : List Int
  High : List Q
  Low : List Q
  Close : List Q
  twenty_ema : List Q
  fifty_ema : List Q
  one_hundred_ema : List Q
  bull : List (Option Q)
  bear : List (Option Q)
  deriving Repr

/-- Raw candle columns (the fields of the stored OHLCV table that the
strategy script reads). -/
structure CandleData where
  Time : List Int
  High : List Q
  Low : List Q
  Close : List Q

/-- The indicator pipeline run by `williams_fractal_trading_simulator.py` at
load time: the three EMAs of the close column and the fractal columns. -/
def build_frame (c : CandleData) : IndicatorFrame :=
  { Time := c.Time, High := c.High, Low := c.Low, Close := c.Close,
    twenty_ema := get_ema_close c.Close 20,
    fifty_ema := get_ema_close c.Close 50,
    one_hundred_ema := get_ema_close c.Close 100,
    bull := (mark_fractals c.Low c.High).1,
    bear := (mark_fractals c.Low c.High).2 }

/-! ### The scan loop of `simulate_trades` -/

/-- Loop state of `simulate_trades`: the `active_trade` flag, the stop-loss
and take-profit retained across iterations, and the two output lists. -/
structure ScanState where
  active : Bool
  stop_loss : Q
  take_profit : Q
  timestamps : List Int
  signals : List Int
  deriving Repr

def initScan : ScanState :=
  { active := false, stop_loss := qzero, take_profit := qzero,
    timestamps := [], signals := [] }

/-- The entry bookkeeping shared by both zone branches: the Python body does
`i += 2` (affecting only the local computations, not the loop), then reads
the boundary EMA, close and time at that shifted row. -/
def entryOpen (f : IndicatorFrame) (target : Q) (s : ScanState) (i : Nat)
    (boundary : List Q) : ScanState :=
  let j := i + 2
  let sl := boundary.getD j qzero
  let d := Q.abs (Q.sub (f.Close.getD j qzero) sl)
  { active := true, stop_loss := sl,
    take_profit := Q.add (f.Close.getD j qzero) (Q.mul d target),
    timestamps := s.timestamps ++ [f.Time.getD j 0],
    signals := s.signals ++ [1] }

/-- One iteration of the scan loop of `simulate_trades` at loop index `i`.
Note that the `i += 2` in the source mutates only the local name inside the
body: the next iteration of the `for i in range(...)` loop resumes at the
natural successor, so after an entry the exit tests run from row `i+1`. -/
def scanStep (f : IndicatorFrame) (target : Q) (s : ScanState) (i : Nat) :
    ScanState :=
  if s.active then
    if Q.le s.take_profit (f.High.getD i qzero)
        || Q.lt (f.Low.getD i qzero) s.stop_loss then
      { s with timestamps := s.timestamps ++ [f.Time.getD i 0],
               signals := s.signals ++ [-1], active := false }
    else s
  else
    if Q.lt (f.fifty_ema.getD i qzero) (f.twenty_ema.getD i qzero)
        && Q.lt (f.one_hundred_ema.getD i qzero) (f.fifty_ema.getD i qzero) then
      match f.bull.getD i none with
      | some b =>
        if Q.le b (f.twenty_ema.getD i qzero)
            && Q.lt (f.fifty_ema.getD i qzero) b then
          entryOpen f target s i f.fifty_ema
        else if Q.le b (f.fifty_ema.getD i qzero)
            && Q.lt (f.one_hundred_ema.getD i qzero) b then
          entryOpen f target s i f.one_hundred_ema
        else s
      | none => s
    else s

/-- Possible outcomes of `simulate_trades`: the `None` return for short
frames, a Python `IndexError` (uncaught exception), or the returned pair of
lists. -/
inductive SimResult where
  | noneResult
  | error (msg : String)
  | ok (timestamps : List Int) (signals : List Int)
  deriving DecidableEq, Repr

/-- Embedding of `simulate_trades(df, target)`: returns `None` when the frame is shorter
than 102 rows; otherwise runs the scan over `range(100, len(df)-2)`, then
executes `if signals[-1] == 1`, which raises `IndexError` when no signal was
emitted, strips a trailing buy when present, and returns the two lists. -/
def scanRun (f : IndicatorFrame) (target : Q) : ScanState :=
  (List.range' 100 (f.Time.length - 102)).foldl (scanStep f target) initScan

def simulate_trades (f : IndicatorFrame) (target : Q) : SimResult :=
  if f.Time.length < 102 then .noneResult
  else
    match (scanRun f target).signals.getLast? with
    | none => .error "list index out of range"
    | some last =>
      if last = 1 then
        .ok (scanRun f target).timestamps.dropLast
          (scanRun f target).signals.dropLast
      else .ok (scanRun f target).timestamps (scanRun f target).signals

/-! ### The backtest engine (`simple_backtester.py`) -/

/-- The candle dataset consumed by `simple_backtest` (`Time` and `Close`
columns). -/
structure Dataset where
  Time : List Int
  Close : List Q
  deriving Repr

/-- Replay state of the backtest loop. -/
structure ReplayState where
  position : Bool
  prev_portfolio_value : Q
  portfolio_value : Q
  crypto_value : Q
  buy_times : List Int
  sell_times : List Int
  trade_times : List Int
  trade_gain_losses : List Q
  trade_perc_gain_losses : List Q
  wins : Nat
  trades : Nat
  deriving Repr

def q100 : Q := ⟨100, 1⟩

def initReplay : ReplayState :=
  { position := false, prev_portfolio_value := q100, portfolio_value := q100,
    crypto_value := qzero, buy_times := [], sell_times := [],
    trade_times := [], trade_gain_losses := [], trade_perc_gain_losses := [],
    wins := 0, trades := 0 }

/-- One iteration of the replay loop over a joined row
`(time, close, signal)`. -/
def replayStep (s : ReplayState) (row : Int × Q × Int) : ReplayState :=
  let t := row.1
  let close := row.2.1
  let signal := row.2.2
  if !s.position && signal = 1 then
    { s with prev_portfolio_value := s.portfolio_value,
             crypto_value := Q.div s.portfolio_value close,
             buy_times := s.buy_times ++ [t],
             position := true }
  else if s.position && signal = -1 then
    let pv := Q.mul s.crypto_value close
    let gain := Q.sub pv s.prev_portfolio_value
    { s with portfolio_value := pv, position := false,
             sell_times := s.sell_times ++ [t],
             trade_times := s.trade_times ++ [t],
             trade_gain_losses := s.trade_gain_losses ++ [gain],
             trade_perc_gain_losses :=
               s.trade_perc_gain_losses ++ [Q.div gain s.prev_portfolio_value],
             trades := s.trades + 1,
             wins := if Q.le qzero gain then s.wins + 1 else s.wins }
  else s

/-- The left merge on `Time` followed by the `isnan` filter: each dataset row,
in dataset order, is joined with every sorted signal sharing its timestamp;
rows without a signal drop out. -/
def joinRows (ds : Dataset) (sorted : List (Int × Int)) :
    List (Int × Q × Int) :=
  (ds.Time.zip ds.Close).flatMap (fun rc =>
    (sorted.filter (fun p => p.1 == rc.1)).map (fun p => (rc.1, rc.2, p.2)))

/-- Mean of a list of integers as a rational (`np.mean` on an integer
array). -/
def qmeanInt (l : List Int) : Q := ⟨l.foldl (· + ·) 0, (l.length : Int)⟩

/-- Mean of a list of rationals (`np.mean` on a float array). -/
def qmean (l : List Q) : Q :=
  Q.div (l.foldl Q.add qzero) (Q.ofInt (l.length : Int))

/-- NumPy 1-d elementwise subtraction with broadcasting: equal lengths
subtract pairwise, a length-1 operand broadcasts, anything else raises
`ValueError`. -/
def npSub (a b : List Int) : Except String (List Int) :=
  if a.length = b.length then .ok (a.zip b |>.map (fun p => p.1 - p.2))
  else if b.length = 1 then .ok (a.map (fun x => x - b.getD 0 0))
  else if a.length = 1 then .ok (b.map (fun y => a.getD 0 0 - y))
  else .error "operands could not be broadcast together"

/-- The aggregate record returned by `simple_backtest`. -/
structure BacktestResult where
  buy_times : List Int
  sell_times : List Int
  trade_times : List Int
  trade_gain_losses : List Q
  trade_perc_gain_losses : List Q
  num_wins : Nat
  win_rate : Q
  num_trades : Nat
  start_portfolio_value : Q
  end_portfolio_value : Q
  percentage_gain : Q
  avg_perc_gain_per_trade : Q
  avg_gain_loss_per_trade : Q
  avg_holding_time : Q
  deriving DecidableEq, Repr

/-- Building the result dictionary from the final replay state.  Evaluating
`np.mean(sell_times - buy_times)` can raise, in which case no record is
produced. -/
def mkResult (fin : ReplayState) : Except String BacktestResult :=
  match (if fin.buy_times.length > 0 && fin.sell_times.length > 0 then
           (npSub fin.sell_times fin.buy_times).map qmeanInt
         else .ok qzero : Except String Q) with
  | .error m => .error m
  | .ok avg => .ok
    { buy_times := fin.buy_times, sell_times := fin.sell_times,
      trade_times := fin.trade_times,
      trade_gain_losses := fin.trade_gain_losses,
      trade_perc_gain_losses := fin.trade_perc_gain_losses,
      num_wins := fin.wins,
      win_rate := if fin.trades > 0
        then Q.div (Q.ofInt (fin.wins : Int)) (Q.ofInt (fin.trades : Int))
        else qzero,
      num_trades := fin.trades,
      start_portfolio_value := q100,
      end_portfolio_value := fin.portfolio_value,
      percentage_gain := Q.div (Q.sub fin.portfolio_value q100) q100,
      avg_perc_gain_per_trade := if fin.trade_perc_gain_losses.length > 0
        then qmean fin.trade_perc_gain_losses else qzero,
      avg_gain_loss_per_trade := if fin.trade_gain_losses.length > 0
        then qmean fin.trade_gain_losses else qzero,
      avg_holding_time := avg }

/-- Relation used to sort signal pairs: timestamp ascending. -/
def timeLE (a b : Int × Int) : Prop := a.1 ≤ b.1

instance : DecidableRel timeLE := fun a b => Int.decLe a.1 b.1

/-- The replay pipeline after validation: sort the (timestamp, signal) pairs
by time, join to the dataset, and fold the replay loop. -/
def replayFinal (ds : Dataset) (sorted : List (Int × Int)) : ReplayState :=
  (joinRows ds sorted).foldl replayStep initReplay

/-- Embedding of `simple_backtest(df, timestamps, signals)`: validate that every signal
timestamp occurs in the `Time` column, then sort the signals by timestamp,
merge, filter, replay, and aggregate. -/
def simple_backtest (ds : Dataset) (timestamps : List Int)
    (signals : List Int) : Except String BacktestResult :=
  if timestamps.any (fun t => !(ds.Time.contains t)) then
    .error "Timestamps must be in the DataFrame"
  else
    mkResult (replayFinal ds (List.insertionSort timeLE (timestamps.zip signals)))

/-- Sorting a signal list by timestamp ascending, as the spec's "once sorted
by timestamp" reads. -/
def sortSignals (ts sigs : List Int) : List (Int × Int) :=
  List.insertionSort timeLE (ts.zip sigs)

/-! ### Concrete indicator frames -/

/-- A 112-candle table: closes rise linearly (so the three EMAs are strictly
ordered over the scan range), with bullish fractal dips at rows 100 and 106
and a take-profit spike at row 103. -/
def candlesA : CandleData :=
  { Time := (List.range 112).map (fun k => ((k : Int) * 60000)),
    Close := (List.range 112).map (fun k => Q.ofInt (100 + (k : Int))),
    High := (List.range 112).map (fun k =>
      if k = 103 then ⟨245, 1⟩ else ⟨(100 + (k : Int)) * 2 + 1, 2⟩),
    Low := (List.range 112).map (fun k =>
      if k = 100 then ⟨180, 1⟩
      else if k = 106 then ⟨1831, 10⟩
      else if k = 107 then ⟨18311, 100⟩
      else ⟨(100 + (k : Int)) * 2 - 1, 2⟩) }

def frameA : IndicatorFrame := build_frame candlesA

/-- A 102-candle table with constant prices: the scan loop
`range(100, 102-2)` is empty, so no signal is ever emitted. -/
def candlesConst : CandleData :=
  { Time := (List.range 102).map (fun k => ((k : Int) * 60000)),
    Close := (List.range 102).map (fun _ => q100),
    High := (List.range 102).map (fun _ => ⟨101, 1⟩),
    Low := (List.range 102).map (fun _ => ⟨99, 1⟩) }

def frameConst : IndicatorFrame := build_frame candlesConst

/-- A 50-candle table with the same constant prices (below the 102-row
warm-up threshold). -/
def candlesShort : CandleData :=
  { Time := (List.range 50).map (fun k => ((k : Int) * 60000)),
    Close := (List.range 50).map (fun _ => q100),
    High := (List.range 50).map (fun _ => ⟨101, 1⟩),
    Low := (List.range 50).map (fun _ => ⟨99, 1⟩) }

def frameShort : IndicatorFrame := build_frame candlesShort

set_option maxRecDepth 1000000 in
/-- Shared evaluation of the generator on `frameA` (target ratio 3/2): two
trades, the second of which exits at row 107, one row before its own entry
timestamp at row 108, because the loop index mutation does not skip rows. -/
lemma frameA_run : simulate_trades frameA ⟨3, 2⟩ =
    SimResult.ok [6120000, 6180000, 6480000, 6420000] [1, -1, 1, -1] := by
  decide

/-! ### The alternation invariant of the scan loop -/

/-- The strictly alternating signal list `[1, -1, 1, -1, ...]` of length
`n`. -/
def altSignals (n : Nat) : List Int :=
  (List.range n).map (fun k => if k % 2 = 0 then 1 else -1)

lemma altSignals_succ (n : Nat) :
    altSignals (n + 1) = altSignals n ++ [if n % 2 = 0 then 1 else -1] := by
  unfold altSignals
  rw [List.range_succ, List.map_append]
  simp

lemma altSignals_length (n : Nat) : (altSignals n).length = n := by
  unfold altSignals
  rw [List.length_map, List.length_range]

lemma altSignals_getLast (n : Nat) :
    (altSignals (n + 1)).getLast? = some (if n % 2 = 0 then 1 else -1) := by
  rw [altSignals_succ, List.getLast?_concat]

lemma altSignals_dropLast (n : Nat) :
    (altSignals (n + 1)).dropLast = altSignals n := by
  rw [altSignals_succ, List.dropLast_concat]

lemma altSignals_chain (n : Nat) :
    List.Chain' (· ≠ ·) (altSignals n) := by
  induction n with
  | zero => simp [altSignals]
  | succ m ih =>
    rw [altSignals_succ, List.chain'_append]
    refine ⟨ih, List.chain'_singleton _, ?_⟩
    intro x hx y hy
    match m, hx with
    | p + 1, hx =>
      rw [altSignals_getLast] at hx
      simp only [List.head?_cons, Option.mem_def, Option.some.injEq] at hx hy
      subst hx; subst hy
      rcases Nat.even_or_odd p with hp | hp
      · have h1 : p % 2 = 0 := Nat.even_iff.mp hp
        have h2 : (p + 1) % 2 = 1 := by omega
        simp [h1, h2]
      · have h1 : p % 2 = 1 := Nat.odd_iff.mp hp
        have h2 : (p + 1) % 2 = 0 := by omega
        simp [h1, h2]

/-- Each scan iteration either leaves the outputs unchanged, or closes an
active trade appending a `-1`, or opens a trade from the flat state
appending a `1`. -/
lemma scanStep_shape (f : IndicatorFrame) (t : Q) (s : ScanState) (i : Nat) :
    (scanStep f t s i = s) ∨
    (s.active = true ∧ scanStep f t s i =
      { s with
          timestamps := s.timestamps ++ [f.Time.getD i 0],
          signals := s.signals ++ [-1],
          active := false }) ∨
    (s.active = false ∧ ∃ sl tp u,
      scanStep f t s i = {
          active := true,
          stop_loss := sl,
          take_profit := tp,
          timestamps := s.timestamps ++ [u],
          signals := s.signals ++ [1] }) := by
  unfold scanStep entryOpen
  cases ha : s.active
  · simp only [ha, Bool.false_eq_true, if_false]
    split
    · split
      · split
        · exact Or.inr (Or.inr ⟨by simp, _, _, _, rfl⟩)
        · split
          · exact Or.inr (Or.inr ⟨by simp, _, _, _, rfl⟩)
          · exact Or.inl rfl
      · exact Or.inl rfl
    · exact Or.inl rfl
  · simp only [ha, if_true]
    split
    · exact Or.inr (Or.inl ⟨by simp, rfl⟩)
    · exact Or.inl rfl

/-- Scan-loop invariant: the emitted signal list is exactly the alternating
list, and the trade is active iff an odd number of signals was emitted. -/
def ScanInv (s : ScanState) : Prop :=
  s.signals = altSignals s.signals.length ∧
    (s.active = true ↔ s.signals.length % 2 = 1)

lemma scanInv_init : ScanInv initScan := by
  constructor
  · rfl
  · simp [initScan]

lemma scanInv_step (f : IndicatorFrame) (t : Q) (s : ScanState) (i : Nat)
    (h : ScanInv s) : ScanInv (scanStep f t s i) := by
  obtain ⟨h1, h2⟩ := h
  rcases scanStep_shape f t s i with he | ⟨ha, he⟩ | ⟨ha, sl, tp, u, he⟩
  · rw [he]; exact ⟨h1, h2⟩
  · have hodd : s.signals.length % 2 = 1 := h2.mp ha
    rw [he]
    constructor
    · simp only [List.length_append, List.length_cons, List.length_nil]
      have : s.signals.length + (0 + 1) = s.signals.length + 1 := by omega
      rw [this, altSignals_succ]
      have hne : s.signals.length % 2 ≠ 0 := by omega
      rw [if_neg hne, ← h1]
    · simp only [List.length_append, List.length_cons, List.length_nil]
      constructor
      · intro hc; exact absurd hc (by simp)
      · intro hc; omega
  · have heven : s.signals.length % 2 = 0 := by
      by_contra hc
      have : s.signals.length % 2 = 1 := by omega
      rw [h2.mpr this] at ha
      exact absurd ha (by simp)
    rw [he]
    constructor
    · simp only [List.length_append, List.length_cons, List.length_nil]
      have : s.signals.length + (0 + 1) = s.signals.length + 1 := by omega
      rw [this, altSignals_succ, if_pos heven, ← h1]
    · simp only [List.length_append, List.length_cons, List.length_nil]
      constructor
      · intro _; omega
      · intro _; trivial

lemma scanInv_foldl (f : IndicatorFrame) (t : Q) :
    ∀ (l : List Nat) (s : ScanState), ScanInv s →
      ScanInv (l.foldl (scanStep f t) s)
  | [], _, h => h
  | i :: l, s, h =>
    scanInv_foldl f t l (scanStep f t s i) (scanInv_step f t s i h)

lemma scanRun_inv (f : IndicatorFrame) (t : Q) : ScanInv (scanRun f t) :=
  scanInv_foldl f t _ initScan scanInv_init

/-- Whenever `simulate_trades` returns a pair of lists, the signal list is an
even-length strictly alternating `[1, -1, 1, -1, ...]` prefix. -/
lemma simulate_ok_signals (f : IndicatorFrame) (t : Q) (ts sigs : List Int)
    (h : simulate_trades f t = SimResult.ok ts sigs) :
    ∃ n, sigs = altSignals n ∧ n % 2 = 0 := by
  unfold simulate_trades at h
  split at h
  · exact absurd h (by simp)
  · obtain ⟨h1, h2⟩ := scanRun_inv f t
    cases hl : (scanRun f t).signals.getLast? with
    | none => rw [hl] at h; exact absurd h (by simp)
    | some last =>
      rw [hl] at h
      have hne : (scanRun f t).signals ≠ [] := by
        intro hc; rw [hc] at hl; exact absurd hl (by simp)
      obtain ⟨m, hm⟩ : ∃ m, (scanRun f t).signals.length = m + 1 := by
        cases hlen : (scanRun f t).signals.length with
        | zero => exact absurd (List.length_eq_zero.mp hlen) hne
        | succ m => exact ⟨m, rfl⟩
      have hlast : last = if m % 2 = 0 then 1 else -1 := by
        have hgl := altSignals_getLast m
        rw [← hm, ← h1, hl] at hgl
        exact Option.some_inj.mp hgl
      simp only at h
      by_cases hone : last = 1
      · rw [if_pos hone] at h
        have hsig : sigs = (scanRun f t).signals.dropLast :=
          ((SimResult.ok.injEq _ _ _ _).mp h).2.symm
        have hmeven : m % 2 = 0 := by
          by_contra hc
          rw [if_neg hc] at hlast
          rw [hlast] at hone
          exact absurd hone (by decide)
        refine ⟨m, ?_, hmeven⟩
        rw [hsig, h1, hm, altSignals_dropLast]
      · rw [if_neg hone] at h
        have hsig : sigs = (scanRun f t).signals :=
          ((SimResult.ok.injEq _ _ _ _).mp h).2.symm
        have hmodd : m % 2 = 1 := by
          by_cases hc : m % 2 = 0
          · rw [if_pos hc] at hlast; exact absurd hlast hone
          · omega
        refine ⟨m + 1, ?_, by omega⟩
        rw [hsig, h1, hm]

/-! ### Entry-transition predicates (spec §4.1) -/

/-- The trend filter `ema_fast[i] > ema_mid[i] > ema_slow[i]`. -/
def trendOK (f : IndicatorFrame) (i : Nat) : Prop :=
  Q.lt (f.fifty_ema.getD i qzero) (f.twenty_ema.getD i qzero) = true ∧
  Q.lt (f.one_hundred_ema.getD i qzero) (f.fifty_ema.getD i qzero) = true

/-- The fast/mid entry zone: `bull ≤ ema_fast` and `bull > ema_mid`. -/
def zoneFastMid (f : IndicatorFrame) (i : Nat) (b : Q) : Prop :=
  Q.le b (f.twenty_ema.getD i qzero) = true ∧
  Q.lt (f.fifty_ema.getD i qzero) b = true

/-- The mid/slow entry zone: `bull ≤ ema_mid` and `bull > ema_slow`. -/
def zoneMidSlow (f : IndicatorFrame) (i : Nat) (b : Q) : Prop :=
  Q.le b (f.fifty_ema.getD i qzero) = true ∧
  Q.lt (f.one_hundred_ema.getD i qzero) b = true

/-! ### Theorems for the William fractal signal generator claims -/

/-- C1 (counterexample): on the genuine 112-candle indicator frame `frameA`
the generator emits BUY at time 6120000, SELL at 6180000, BUY at 6480000 and
SELL at 6420000 — the last trade's exit carries an earlier timestamp than its
entry — so after sorting by timestamp the direction sequence is
`[BUY, SELL, SELL, BUY]`, which has two consecutive SELLs.  This refutes the
claim that the time-sorted output never has two consecutive signals of the
same direction. -/
theorem C1_counterexample :
    simulate_trades frameA ⟨3, 2⟩ =
      SimResult.ok [6120000, 6180000, 6480000, 6420000] [1, -1, 1, -1] ∧
    (sortSignals [6120000, 6180000, 6480000, 6420000] [1, -1, 1, -1]).map
      Prod.snd = [1, -1, -1, 1] ∧
    ¬ List.Chain' (· ≠ ·) ([1, -1, -1, 1] : List Int) :=
  ⟨frameA_run, by decide,
   fun hc => ((List.chain'_cons.mp ((List.chain'_cons.mp hc).2)).1) rfl⟩

/-- C1 (amended): in the order in which the generator returns them, no two
consecutive signals share a direction — the emitted sequence strictly
alternates BUY, SELL, BUY, SELL, … (sorting by timestamp can break this,
as the counterexample shows). -/
theorem C1_amended_alternation (f : IndicatorFrame) (t : Q)
    (ts sigs : List Int) (h : simulate_trades f t = SimResult.ok ts sigs) :
    List.Chain' (· ≠ ·) sigs := by
  obtain ⟨n, hn, _⟩ := simulate_ok_signals f t ts sigs h
  rw [hn]
  exact altSignals_chain n

/-- Witness for `C1_amended_alternation` at the concrete frame `frameA`. -/
theorem C1_amended_witness :
    List.Chain' (· ≠ ·) ([1, -1, 1, -1] : List Int) :=
  C1_amended_alternation frameA ⟨3, 2⟩
    [6120000, 6180000, 6480000, 6420000] [1, -1, 1, -1] frameA_run

/-- C2: the claim that the generator raises no error for frames of length
`N ≥ 102` is wrong on the code: on the genuine 102-candle constant-price
frame `frameConst` the scan range `range(100, 100)` is empty, no signal is
emitted, and `signals[-1]` raises `IndexError`; the `N < 102` half behaves
as specified (here on the 50-candle `frameShort`). -/
theorem C2_empty_scan_raises :
    simulate_trades frameConst ⟨3, 2⟩ =
      SimResult.error "list index out of range" ∧
    simulate_trades frameShort ⟨3, 2⟩ = SimResult.noneResult :=
  ⟨by decide, by decide⟩

/-- C6: the signal sequence returned by the generator never ends with a BUY:
the scan output strictly alternates starting with BUY, and a trailing BUY is
stripped, so a returned list is empty or ends with SELL. -/
theorem C6_no_trailing_buy (f : IndicatorFrame) (t : Q) (ts sigs : List Int)
    (h : simulate_trades f t = SimResult.ok ts sigs) :
    sigs.getLast? ≠ some 1 := by
  obtain ⟨n, hn, hev⟩ := simulate_ok_signals f t ts sigs h
  subst hn
  match n, hev with
  | 0, _ => simp [altSignals]
  | m + 1, hev =>
    rw [altSignals_getLast]
    rw [if_neg (by omega)]
    decide

/-- Witness for `C6_no_trailing_buy` at the concrete frame `frameA`. -/
theorem C6_witness : ([1, -1, 1, -1] : List Int).getLast? ≠ some 1 :=
  C6_no_trailing_buy frameA ⟨3, 2⟩
    [6120000, 6180000, 6480000, 6420000] [1, -1, 1, -1] frameA_run

/-- C7: from the flat state, the scan at row `i` emits a signal only when the
strict trend filter holds and the fractal is non-null and lies in one of the
two zones; a fast/mid match (checked first) opens with boundary `fifty_ema`,
an otherwise matching mid/slow zone opens with boundary `one_hundred_ema`,
in both cases emitting BUY at `time[i+2]` with
`stop_loss = boundary[i+2]` and
`take_profit = close[i+2] + |close[i+2] − stop_loss| · target`; and when
`ema_fast[i] ≤ ema_mid[i]` nothing fires, regardless of the fractal. -/
theorem C7_flat_entry (f : IndicatorFrame) (t : Q) (s : ScanState) (i : Nat)
    (hs : s.active = false) :
    ((scanStep f t s i).signals ≠ s.signals →
      trendOK f i ∧ ∃ b, f.bull.getD i none = some b ∧
        (zoneFastMid f i b ∨ zoneMidSlow f i b)) ∧
    (∀ b, f.bull.getD i none = some b → trendOK f i → zoneFastMid f i b →
      scanStep f t s i = {
        active := true,
        stop_loss := f.fifty_ema.getD (i + 2) qzero,
        take_profit := Q.add (f.Close.getD (i + 2) qzero)
          (Q.mul (Q.abs (Q.sub (f.Close.getD (i + 2) qzero)
            (f.fifty_ema.getD (i + 2) qzero))) t),
        timestamps := s.timestamps ++ [f.Time.getD (i + 2) 0],
        signals := s.signals ++ [1] }) ∧
    (∀ b, f.bull.getD i none = some b → trendOK f i → ¬ zoneFastMid f i b →
      zoneMidSlow f i b →
      scanStep f t s i = {
        active := true,
        stop_loss := f.one_hundred_ema.getD (i + 2) qzero,
        take_profit := Q.add (f.Close.getD (i + 2) qzero)
          (Q.mul (Q.abs (Q.sub (f.Close.getD (i + 2) qzero)
            (f.one_hundred_ema.getD (i + 2) qzero))) t),
        timestamps := s.timestamps ++ [f.Time.getD (i + 2) 0],
        signals := s.signals ++ [1] }) ∧
    (Q.le (f.twenty_ema.getD i qzero) (f.fifty_ema.getD i qzero) = true →
      scanStep f t s i = s) := by
  refine ⟨?_, ?_, ?_, ?_⟩
  · intro hch
    simp only [scanStep, hs, Bool.false_eq_true, if_false] at hch
    split at hch
    · rename_i htr
      rw [Bool.and_eq_true] at htr
      cases hb : f.bull.getD i none with
      | none => simp only [hb] at hch; exact absurd rfl hch
      | some b =>
        simp only [hb] at hch
        refine ⟨⟨htr.1, htr.2⟩, b, rfl, ?_⟩
        by_cases hz1 : (Q.le b (f.twenty_ema.getD i qzero)
            && Q.lt (f.fifty_ema.getD i qzero) b) = true
        · rw [Bool.and_eq_true] at hz1
          exact Or.inl ⟨hz1.1, hz1.2⟩
        · rw [if_neg hz1] at hch
          by_cases hz2 : (Q.le b (f.fifty_ema.getD i qzero)
              && Q.lt (f.one_hundred_ema.getD i qzero) b) = true
          · rw [Bool.and_eq_true] at hz2
            exact Or.inr ⟨hz2.1, hz2.2⟩
          · rw [if_neg hz2] at hch
            exact absurd rfl hch
    · exact absurd rfl hch
  · intro b hb htr hz
    simp only [scanStep, entryOpen, hs, Bool.false_eq_true, if_false, hb]
    rw [if_pos (Bool.and_eq_true _ _ |>.mpr ⟨htr.1, htr.2⟩)]
    rw [if_pos (Bool.and_eq_true _ _ |>.mpr ⟨hz.1, hz.2⟩)]
  · intro b hb htr hz1 hz2
    simp only [scanStep, entryOpen, hs, Bool.false_eq_true, if_false, hb]
    rw [if_pos (Bool.and_eq_true _ _ |>.mpr ⟨htr.1, htr.2⟩)]
    rw [if_neg (fun hc => hz1 ⟨(Bool.and_eq_true _ _ |>.mp hc).1,
      (Bool.and_eq_true _ _ |>.mp hc).2⟩)]
    rw [if_pos (Bool.and_eq_true _ _ |>.mpr ⟨hz2.1, hz2.2⟩)]
  · intro hle
    simp only [scanStep, hs, Bool.false_eq_true, if_false]
    have hlt : Q.lt (f.fifty_ema.getD i qzero) (f.twenty_ema.getD i qzero)
        = false := by
      unfold Q.le at hle
      unfold Q.lt
      rw [decide_eq_true_eq] at hle
      rw [decide_eq_false_iff_not]
      omega
    rw [hlt]
    simp

set_option maxRecDepth 1000000 in
/-- Witness for `C7_flat_entry`: at row 100 of `frameA` the fast/mid zone
fires and the scan opens a trade priced at row 102. -/
theorem C7_witness :
    scanStep frameA ⟨3, 2⟩ initScan 100 = {
      active := true,
      stop_loss := frameA.fifty_ema.getD 102 qzero,
      take_profit := Q.add (frameA.Close.getD 102 qzero)
        (Q.mul (Q.abs (Q.sub (frameA.Close.getD 102 qzero)
          (frameA.fifty_ema.getD 102 qzero))) ⟨3, 2⟩),
      timestamps := initScan.timestamps ++ [frameA.Time.getD 102 0],
      signals := initScan.signals ++ [1] } :=
  (C7_flat_entry frameA ⟨3, 2⟩ initScan 100 rfl).2.1 ⟨180, 1⟩
    (by decide) (by unfold trendOK; decide) (by unfold zoneFastMid; decide)

/-- C9: during replay, a BUY while the account is LONG and a SELL while it
is FLAT both leave the entire replay state unchanged. -/
theorem C9_replay_noop (s : ReplayState) (t : Int) (c : Q) :
    (s.position = true → replayStep s (t, c, 1) = s) ∧
    (s.position = false → replayStep s (t, c, -1) = s) := by
  constructor
  · intro hp
    unfold replayStep
    simp [hp]
  · intro hp
    unfold replayStep
    simp [hp]

/-- Witness for `C9_replay_noop` at concrete states. -/
theorem C9_witness :
    replayStep { initReplay with position := true } (0, q100, 1) =
      { initReplay with position := true } ∧
    replayStep initReplay (0, q100, -1) = initReplay :=
  ⟨(C9_replay_noop { initReplay with position := true } 0 q100).1 rfl,
   (C9_replay_noop initReplay 0 q100).2 rfl⟩

/-! ### Theorems for the backtest engine claims -/

/-- Scenario A/B/C dataset: times `[0, 60000, 120000]`, closes
`[100, 110, 90]`. -/
def dsA : Dataset :=
  { Time := [0, 60000, 120000], Close := [⟨100, 1⟩, ⟨110, 1⟩, ⟨90, 1⟩] }

/-- Placeholder record returned by `okD` on an error (never used on the
success path). -/
def junkResult : BacktestResult :=
  { buy_times := [], sell_times := [], trade_times := [],
    trade_gain_losses := [], trade_perc_gain_losses := [], num_wins := 0,
    win_rate := qzero, num_trades := 0, start_portfolio_value := qzero,
    end_portfolio_value := qzero, percentage_gain := qzero,
    avg_perc_gain_per_trade := qzero, avg_gain_loss_per_trade := qzero,
    avg_holding_time := qzero }

def okD (e : Except String BacktestResult) : BacktestResult :=
  match e with
  | .ok r => r
  | .error _ => junkResult

/-- C4: Scenario A — buying at close 100 with the whole 100.0 account yields
1.0 unit; selling at close 90 returns 90.0; the run reports one losing trade
with gain −10, percentage gain −0.10, and final portfolio value 90. -/
theorem C4_scenarioA :
    (simple_backtest dsA [0, 120000] [1, -1]).toOption.isSome = true ∧
    (okD (simple_backtest dsA [0, 120000] [1, -1])).num_trades = 1 ∧
    (okD (simple_backtest dsA [0, 120000] [1, -1])).num_wins = 0 ∧
    Q.Eqv (okD (simple_backtest dsA [0, 120000] [1, -1])).end_portfolio_value
      ⟨90, 1⟩ ∧
    Q.Eqv (okD (simple_backtest dsA [0, 120000] [1, -1])).percentage_gain
      ⟨-1, 10⟩ ∧
    (okD (simple_backtest dsA [0, 120000] [1, -1])).trade_gain_losses.length
      = 1 ∧
    Q.Eqv ((okD (simple_backtest dsA [0, 120000] [1, -1])).trade_gain_losses.getD
      0 qzero) ⟨-10, 1⟩ ∧
    (okD (simple_backtest dsA [0, 120000] [1, -1])).trade_perc_gain_losses.length
      = 1 ∧
    Q.Eqv ((okD (simple_backtest dsA [0, 120000]
      [1, -1])).trade_perc_gain_losses.getD 0 qzero) ⟨-1, 10⟩ ∧
    Q.Eqv (replayFinal dsA (sortSignals [0, 120000] [1, -1])).crypto_value
      ⟨1, 1⟩ := by
  decide

/-- Any error escaping `mkResult` is the NumPy broadcast failure, never the
timestamp-validation message. -/
lemma mkResult_error_msg (fin : ReplayState) (m : String)
    (h : mkResult fin = .error m) :
    m = "operands could not be broadcast together" := by
  unfold mkResult at h
  split at h
  · rename_i m' heq
    have hm : m' = m := by
      cases h
      rfl
    subst hm
    split at heq
    · unfold npSub at heq
      split at heq
      · exact absurd heq (by simp [Except.map])
      · split at heq
        · exact absurd heq (by simp [Except.map])
        · split at heq
          · exact absurd heq (by simp [Except.map])
          · simp [Except.map] at heq
            exact heq.symm
    · exact absurd heq (by simp)
  · exact absurd h (by simp)

/-- C3: the engine fails with the timestamp-validation error exactly when
some signal timestamp is absent from the dataset's `Time` column; the check
runs before the replay, and the `Except` result carries no partial record. -/
theorem C3_validation_iff (ds : Dataset) (ts sigs : List Int) :
    simple_backtest ds ts sigs = .error "Timestamps must be in the DataFrame"
      ↔ ∃ t ∈ ts, t ∉ ds.Time := by
  constructor
  · intro h
    unfold simple_backtest at h
    split at h
    · rename_i hv
      rw [List.any_eq_true] at hv
      obtain ⟨t, ht, hp⟩ := hv
      rw [Bool.not_eq_true'] at hp
      refine ⟨t, ht, fun hmem => ?_⟩
      have hc : ds.Time.contains t = true := List.elem_iff.mpr hmem
      rw [hp] at hc
      exact Bool.noConfusion hc
    · exact absurd (mkResult_error_msg _ _ h) (by decide)
  · rintro ⟨t, ht, hmem⟩
    unfold simple_backtest
    rw [if_pos]
    rw [List.any_eq_true]
    refine ⟨t, ht, ?_⟩
    rw [Bool.not_eq_true']
    cases hc : ds.Time.contains t with
    | false => rfl
    | true => exact absurd (List.elem_iff.mp hc) hmem

/-- Witness for `C3_validation_iff`: Scenario C, the timestamp 999999 is not
in the dataset. -/
theorem C3_witness :
    simple_backtest dsA [0, 999999] [1, -1] =
      .error "Timestamps must be in the DataFrame" :=
  (C3_validation_iff dsA [0, 999999] [1, -1]).mpr
    ⟨999999, by decide, by decide⟩

instance : IsTotal (Int × Int) timeLE := ⟨fun a b => Int.le_total a.1 b.1⟩

instance : IsTrans (Int × Int) timeLE :=
  ⟨fun _ _ _ hab hbc => Int.le_trans hab hbc⟩

instance : IsAntisymm (Int × Int) (fun a b : Int × Int => a.1 < b.1) :=
  ⟨fun _ _ h1 h2 => absurd (lt_trans h1 h2) (lt_irrefl _)⟩

/-- A list sorted by timestamp whose timestamps are pairwise distinct is
sorted by strict timestamp order. -/
lemma sorted_strict_of_nodup (l : List (Int × Int))
    (hs : l.Sorted timeLE) (hnd : (l.map Prod.fst).Nodup) :
    l.Sorted (fun a b : Int × Int => a.1 < b.1) := by
  have hne : l.Pairwise (fun a b : Int × Int => a.1 ≠ b.1) :=
    (List.pairwise_map).mp hnd
  exact (List.Pairwise.and hs hne).imp
    (fun hab => lt_of_le_of_ne hab.1 hab.2)

/-- C5: with pairwise-distinct signal timestamps, the engine's result is
invariant under permutation of the signal list: it sorts by timestamp before
the merge, and on distinct keys the sorted sequence is unique. -/
theorem C5_permutation_invariant (ds : Dataset) (ts1 sigs1 ts2 sigs2 : List Int)
    (h1 : ts1.length = sigs1.length) (h2 : ts2.length = sigs2.length)
    (hperm : (ts1.zip sigs1).Perm (ts2.zip sigs2)) (hnd : ts1.Nodup) :
    simple_backtest ds ts1 sigs1 = simple_backtest ds ts2 sigs2 := by
  have hts : ts1.Perm ts2 := by
    have hmap := hperm.map Prod.fst
    rwa [List.map_fst_zip _ _ (le_of_eq h1),
         List.map_fst_zip _ _ (le_of_eq h2)] at hmap
  have hsortperm : (List.insertionSort timeLE (ts1.zip sigs1)).Perm
      (List.insertionSort timeLE (ts2.zip sigs2)) :=
    ((List.perm_insertionSort _ _).trans hperm).trans
      (List.perm_insertionSort _ _).symm
  have hnd1 : ((List.insertionSort timeLE (ts1.zip sigs1)).map Prod.fst).Nodup := by
    have : ((List.insertionSort timeLE (ts1.zip sigs1)).map Prod.fst).Perm ts1 := by
      have := (List.perm_insertionSort timeLE (ts1.zip sigs1)).map Prod.fst
      rwa [List.map_fst_zip _ _ (le_of_eq h1)] at this
    exact this.nodup_iff.mpr hnd
  have hnd2 : ((List.insertionSort timeLE (ts2.zip sigs2)).map Prod.fst).Nodup := by
    have hp : ((List.insertionSort timeLE (ts2.zip sigs2)).map Prod.fst).Perm ts2 := by
      have := (List.perm_insertionSort timeLE (ts2.zip sigs2)).map Prod.fst
      rwa [List.map_fst_zip _ _ (le_of_eq h2)] at this
    exact hp.nodup_iff.mpr (hts.nodup_iff.mp hnd)
  have hsorted : List.insertionSort timeLE (ts1.zip sigs1) =
      List.insertionSort timeLE (ts2.zip sigs2) :=
    List.eq_of_perm_of_sorted (r := fun a b : Int × Int => a.1 < b.1)
      hsortperm
      (sorted_strict_of_nodup _ (List.sorted_insertionSort _ _) hnd1)
      (sorted_strict_of_nodup _ (List.sorted_insertionSort _ _) hnd2)
  have hany : ts1.any (fun t => !(ds.Time.contains t)) =
      ts2.any (fun t => !(ds.Time.contains t)) := by
    rw [Bool.eq_iff_iff]
    simp only [List.any_eq_true]
    exact ⟨fun ⟨x, hx, hp⟩ => ⟨x, hts.mem_iff.mp hx, hp⟩,
           fun ⟨x, hx, hp⟩ => ⟨x, hts.mem_iff.mpr hx, hp⟩⟩
  unfold simple_backtest
  rw [hany, hsorted]

/-- Witness for `C5_permutation_invariant`: Scenario B, the Scenario A
signals supplied out of order. -/
theorem C5_witness :
    simple_backtest dsA [120000, 0] [-1, 1] =
      simple_backtest dsA [0, 120000] [1, -1] :=
  C5_permutation_invariant dsA [120000, 0] [-1, 1] [0, 120000] [1, -1]
    rfl rfl (List.Perm.swap (0, 1) (120000, -1) []) (by decide)

/-! ### Zero-trade degeneracy (C8) -/

/-- Replay invariant: as long as no trade has closed, the portfolio value,
win counter and all per-trade lists are untouched. -/
def ZeroTradeInv (s : ReplayState) : Prop :=
  s.trades = 0 → s.portfolio_value = q100 ∧ s.wins = 0 ∧
    s.sell_times = [] ∧ s.trade_gain_losses = [] ∧
    s.trade_perc_gain_losses = []

lemma zeroTradeInv_step (s : ReplayState) (row : Int × Q × Int)
    (h : ZeroTradeInv s) : ZeroTradeInv (replayStep s row) := by
  unfold replayStep
  dsimp only
  split
  · intro h0
    exact h h0
  · split
    · intro h0
      simp at h0
    · exact h

lemma zeroTradeInv_foldl :
    ∀ (l : List (Int × Q × Int)) (s : ReplayState), ZeroTradeInv s →
      ZeroTradeInv (l.foldl replayStep s)
  | [], _, h => h
  | row :: l, s, h =>
    zeroTradeInv_foldl l (replayStep s row) (zeroTradeInv_step s row h)

/-- The aggregate record computed from a degenerate run (no joined signal
rows at all). -/
def emptyRunResult : BacktestResult :=
  { buy_times := [], sell_times := [], trade_times := [],
    trade_gain_losses := [], trade_perc_gain_losses := [], num_wins := 0,
    win_rate := qzero, num_trades := 0, start_portfolio_value := q100,
    end_portfolio_value := q100,
    percentage_gain := Q.div (Q.sub q100 q100) q100,
    avg_perc_gain_per_trade := qzero, avg_gain_loss_per_trade := qzero,
    avg_holding_time := qzero }

lemma joinRows_nil (ds : Dataset) : joinRows ds [] = [] := by
  unfold joinRows
  simp

/-- C8: an empty signal list yields a normal result with zero trades and an
untouched 100.0 portfolio, and more generally any replay that closes zero
trades reports end value 100, percentage gain 0, and all four aggregates
defaulting to 0 rather than dividing by zero. -/
theorem C8_degenerate_defaults :
    (∀ ds : Dataset, simple_backtest ds [] [] = Except.ok emptyRunResult) ∧
    emptyRunResult.num_trades = 0 ∧
    emptyRunResult.end_portfolio_value = q100 ∧
    Q.Eqv emptyRunResult.percentage_gain qzero ∧
    (∀ (ds : Dataset) (ts sigs : List Int) (r : BacktestResult),
      simple_backtest ds ts sigs = Except.ok r → r.num_trades = 0 →
      r.end_portfolio_value = q100 ∧ Q.Eqv r.percentage_gain qzero ∧
      r.win_rate = qzero ∧ r.avg_perc_gain_per_trade = qzero ∧
      r.avg_gain_loss_per_trade = qzero ∧ r.avg_holding_time = qzero ∧
      r.num_wins = 0) := by
  refine ⟨?_, rfl, rfl, by decide, ?_⟩
  · intro ds
    unfold simple_backtest
    rw [if_neg (by simp)]
    show mkResult (replayFinal ds []) = Except.ok emptyRunResult
    unfold replayFinal
    rw [joinRows_nil]
    rfl
  · intro ds ts sigs r hok h0
    unfold simple_backtest at hok
    split at hok
    · exact absurd hok (by simp)
    · have hinv : ZeroTradeInv (replayFinal ds
          (List.insertionSort timeLE (ts.zip sigs))) := by
        unfold replayFinal
        exact zeroTradeInv_foldl _ _ (fun _ => ⟨rfl, rfl, rfl, rfl, rfl⟩)
      unfold mkResult at hok
      split at hok
      · exact absurd hok (by simp)
      · rename_i avg heq
        have hr : r = _ := ((Except.ok.injEq _ _).mp hok).symm
        subst hr
        have htr : (replayFinal ds
            (List.insertionSort timeLE (ts.zip sigs))).trades = 0 := h0
        obtain ⟨hpv, hw, hsell, hgl, hpgl⟩ := hinv htr
        refine ⟨hpv, ?_, ?_, ?_, ?_, ?_, hw⟩
        · simp only [hpv]
          decide
        · simp [htr]
        · simp [hpgl]
        · simp [hgl]
        · show avg = qzero
          rw [hsell] at heq
          simp at heq
          exact heq.symm
  
/-- Witness for `C8_degenerate_defaults`, applying the zero-trade clause to
the empty run on the Scenario A dataset. -/
theorem C8_witness :
    emptyRunResult.end_portfolio_value = q100 ∧
    Q.Eqv emptyRunResult.percentage_gain qzero ∧
    emptyRunResult.win_rate = qzero ∧
    emptyRunResult.avg_perc_gain_per_trade = qzero ∧
    emptyRunResult.avg_gain_loss_per_trade = qzero ∧
    emptyRunResult.avg_holding_time = qzero ∧
    emptyRunResult.num_wins = 0 :=
  C8_degenerate_defaults.2.2.2.2 dsA [] [] emptyRunResult
    (C8_degenerate_defaults.1 dsA) rfl

/-! ### Holding-time aggregation (C10) -/

/-- The per-closed-trade holding times: ordered pairwise differences
`sell_time − buy_time` (truncated to the closed trades). -/
def holdingDiffs (fin : ReplayState) : List Int :=
  (fin.sell_times.zip fin.buy_times).map (fun p => p.1 - p.2)

/-- The replay state reached by `simple_backtest` after sorting and
joining. -/
def btReplay (ds : Dataset) (ts sigs : List Int) : ReplayState :=
  replayFinal ds (List.insertionSort timeLE (ts.zip sigs))

lemma map_fst_zip_sublist :
    ∀ (l : List Int) (l' : List Q), (((l.zip l').map Prod.fst).Sublist l)
  | [], _ => by simp
  | _ :: _, [] => by simp
  | a :: l, b :: l' => by
    simp only [List.zip_cons_cons, List.map_cons]
    exact (map_fst_zip_sublist l l').cons₂ a

lemma filter_key_length_le_one (t : Int) :
    ∀ (sorted : List (Int × Int)),
      sorted.Pairwise (fun a b : Int × Int => a.1 ≠ b.1) →
      (sorted.filter (fun p => p.1 == t)).length ≤ 1
  | [], _ => by simp
  | p :: l, hnd => by
    rw [List.pairwise_cons] at hnd
    rw [List.filter_cons]
    split
    · rename_i hpt
      have hl : l.filter (fun p => p.1 == t) = [] := by
        rw [List.filter_eq_nil_iff]
        intro q hq hqt
        rw [beq_iff_eq] at hpt hqt
        exact hnd.1 q hq (hpt.trans hqt.symm)
      rw [hl]
      simp
    · exact filter_key_length_le_one t l hnd.2

lemma join_times_sublist :
    ∀ (rows : List (Int × Q)) (sorted : List (Int × Int)),
      sorted.Pairwise (fun a b : Int × Int => a.1 ≠ b.1) →
      (((rows.flatMap (fun rc => (sorted.filter (fun p => p.1 == rc.1)).map
          (fun p => (rc.1, rc.2, p.2)))).map (fun r => r.1)).Sublist
        (rows.map Prod.fst))
  | [], _, _ => by simp
  | rc :: rows, sorted, hnd => by
    simp only [List.flatMap_cons, List.map_append, List.map_cons, List.map_map]
    have hrest := join_times_sublist rows sorted hnd
    have hlen := filter_key_length_le_one rc.1 sorted hnd
    cases hfl : sorted.filter (fun p => p.1 == rc.1) with
    | nil =>
      simp only [hfl, List.map_nil, List.nil_append]
      exact hrest.cons rc.1
    | cons p tail =>
      have htail : tail = [] := by
        rw [hfl] at hlen
        simp at hlen
        exact hlen
      subst htail
      simp only [hfl, List.map_cons, List.map_nil, List.singleton_append,
        Function.comp]
      exact hrest.cons₂ rc.1

lemma replay_buys_pairwise :
    ∀ (l : List (Int × Q × Int)) (s : ReplayState),
      ((s.buy_times ++ l.map (fun r => r.1)).Pairwise
        (fun a b : Int => a < b)) →
      ((l.foldl replayStep s).buy_times.Pairwise (fun a b : Int => a < b))
  | [], s, h => by simpa using h
  | row :: l, s, h => by
    apply replay_buys_pairwise l
    unfold replayStep
    dsimp only
    split
    · simp only [List.map_cons] at h
      rw [List.append_assoc]
      exact h
    · split
      · refine h.sublist ?_
        simp only [List.map_cons]
        exact List.Sublist.append_left (List.sublist_cons_self _ _) _
      · refine h.sublist ?_
        simp only [List.map_cons]
        exact List.Sublist.append_left (List.sublist_cons_self _ _) _

/-- The sorted signal list has pairwise-distinct timestamps when the input
timestamps are distinct. -/
lemma sorted_keys_ne (ts sigs : List Int) (hl : ts.length = sigs.length)
    (hnd : ts.Nodup) :
    (List.insertionSort timeLE (ts.zip sigs)).Pairwise
      (fun a b : Int × Int => a.1 ≠ b.1) := by
  have hzip : (ts.zip sigs).Pairwise (fun a b : Int × Int => a.1 ≠ b.1) := by
    have hm : ((ts.zip sigs).map Prod.fst).Nodup := by
      rw [List.map_fst_zip _ _ (le_of_eq hl)]
      exact hnd
    exact (List.pairwise_map).mp hm
  exact ((List.perm_insertionSort timeLE _).pairwise_iff
    (fun h => h.symm)).mpr hzip

/-- Executed buy timestamps are strictly increasing when the dataset's
timestamps are strictly increasing and the signal timestamps are
distinct. -/
lemma btReplay_buys_pairwise (ds : Dataset) (ts sigs : List Int)
    (hds : ds.Time.Pairwise (fun a b : Int => a < b))
    (hl : ts.length = sigs.length) (hnd : ts.Nodup) :
    (btReplay ds ts sigs).buy_times.Pairwise (fun a b : Int => a < b) := by
  unfold btReplay replayFinal
  apply replay_buys_pairwise
  show (([] : List Int) ++ _).Pairwise _
  rw [List.nil_append]
  have hsub : (((joinRows ds (List.insertionSort timeLE (ts.zip sigs))).map
      (fun r => r.1))).Sublist ds.Time := by
    unfold joinRows
    exact (join_times_sublist _ _ (sorted_keys_ne ts sigs hl hnd)).trans
      (map_fst_zip_sublist ds.Time ds.Close)
  exact hds.sublist hsub

/-- C10: when the replay closes every opened trade (equal numbers of executed
buys and sells), the engine returns normally and `avg_holding_time` is the
mean of the pairwise differences `sell_time − buy_time`; when one executed
buy is left unmatched and at least one trade closed, the NumPy subtraction
over the mismatched arrays either raises the broadcast error (two or more
closed trades) or broadcasts and returns a value different from the mean
holding time over the closed trades (exactly one closed trade). -/
theorem C10_avg_holding_time :
    (∀ (ds : Dataset) (ts sigs : List Int),
      ts.any (fun t => !(ds.Time.contains t)) = false →
      (btReplay ds ts sigs).buy_times.length =
        (btReplay ds ts sigs).sell_times.length →
      ∃ r, simple_backtest ds ts sigs = Except.ok r ∧
        Q.Eqv r.avg_holding_time
          (qmeanInt (holdingDiffs (btReplay ds ts sigs)))) ∧
    (∀ (ds : Dataset) (ts sigs : List Int),
      ds.Time.Pairwise (fun a b : Int => a < b) → ts.Nodup →
      ts.length = sigs.length →
      ts.any (fun t => !(ds.Time.contains t)) = false →
      (btReplay ds ts sigs).buy_times.length =
        (btReplay ds ts sigs).sell_times.length + 1 →
      1 ≤ (btReplay ds ts sigs).sell_times.length →
      simple_backtest ds ts sigs =
          Except.error "operands could not be broadcast together" ∨
      ∃ r, simple_backtest ds ts sigs = Except.ok r ∧
        ¬ Q.Eqv r.avg_holding_time
          (qmeanInt (holdingDiffs (btReplay ds ts sigs)))) := by
  have hrun : ∀ (ds : Dataset) (ts sigs : List Int),
      ts.any (fun t => !(ds.Time.contains t)) = false →
      simple_backtest ds ts sigs = mkResult (btReplay ds ts sigs) := by
    intro ds ts sigs hval
    unfold simple_backtest btReplay
    rw [hval]
    simp
  constructor
  · intro ds ts sigs hval hlen
    rw [hrun ds ts sigs hval]
    have hnp : npSub (btReplay ds ts sigs).sell_times
        (btReplay ds ts sigs).buy_times =
        Except.ok (holdingDiffs (btReplay ds ts sigs)) := by
      unfold npSub holdingDiffs
      rw [if_pos hlen.symm]
    unfold mkResult
    split
    · rename_i m heq
      split at heq
      · rw [hnp] at heq
        exact absurd heq (by simp [Except.map])
      · exact absurd heq (by simp)
    · rename_i avg heq
      refine ⟨_, rfl, ?_⟩
      show Q.Eqv avg (qmeanInt (holdingDiffs (btReplay ds ts sigs)))
      split at heq
      · rw [hnp] at heq
        simp [Except.map] at heq
        rw [← heq]
        rfl
      · rename_i hg
        simp at heq
        rw [← heq]
        have hs0 : (btReplay ds ts sigs).sell_times = [] := by
          rcases Nat.eq_zero_or_pos (btReplay ds ts sigs).sell_times.length
            with h0 | hpos
          · exact List.length_eq_zero.mp h0
          · exact absurd (by
              rw [Bool.and_eq_true]
              constructor <;> rw [decide_eq_true_eq] <;> omega) hg
        simp [holdingDiffs, hs0, qmeanInt, Q.Eqv, qzero]
  · intro ds ts sigs hds hnd hl hval hlen hpos
    rw [hrun ds ts sigs hval]
    have hb01 := btReplay_buys_pairwise ds ts sigs hds hl hnd
    rcases Nat.lt_or_ge (btReplay ds ts sigs).sell_times.length 2
      with hsl | hsl
    · -- exactly one closed trade: broadcasting produces a wrong mean
      have hs1 : (btReplay ds ts sigs).sell_times.length = 1 := by omega
      have hb2 : (btReplay ds ts sigs).buy_times.length = 2 := by omega
      obtain ⟨s0, hsell⟩ := List.length_eq_one.mp hs1
      obtain ⟨b0, b1, hbuy⟩ := List.length_eq_two.mp hb2
      have hblt : b0 < b1 := by
        rw [hbuy] at hb01
        rw [List.pairwise_cons] at hb01
        exact hb01.1 b1 (by simp)
      have hnp : npSub (btReplay ds ts sigs).sell_times
          (btReplay ds ts sigs).buy_times = Except.ok [s0 - b0, s0 - b1] := by
        unfold npSub
        rw [hsell, hbuy]
        norm_num
      right
      unfold mkResult
      rw [if_pos (by rw [Bool.and_eq_true]
                     constructor <;> rw [decide_eq_true_eq] <;> omega)]
      rw [hnp]
      refine ⟨_, rfl, ?_⟩
      show ¬ Q.Eqv (qmeanInt [s0 - b0, s0 - b1])
        (qmeanInt (holdingDiffs (btReplay ds ts sigs)))
      rw [holdingDiffs, hsell, hbuy]
      intro hc
      simp only [qmeanInt, Q.Eqv, List.zip_cons_cons, List.zip_nil_left,
        List.map_cons, List.map_nil, List.foldl_cons, List.foldl_nil,
        List.length_cons, List.length_nil] at hc
      omega
    · -- two or more closed trades: the subtraction raises
      left
      have hnp : npSub (btReplay ds ts sigs).sell_times
          (btReplay ds ts sigs).buy_times =
          Except.error "operands could not be broadcast together" := by
        unfold npSub
        rw [if_neg (by omega), if_neg (by omega), if_neg (by omega)]
      unfold mkResult
      rw [if_pos (by rw [Bool.and_eq_true]
                     constructor <;> rw [decide_eq_true_eq] <;> omega)]
      rw [hnp]
      rfl

/-- Witness for `C10_avg_holding_time`: Scenario A closes its one trade, so
the average holding time is `120000`; a buy-sell-buy signal list on the same
dataset leaves a buy unmatched with one closed trade, and the broadcast
average disagrees with the closed trade's holding time. -/
theorem C10_witness :
    (∃ r, simple_backtest dsA [0, 120000] [1, -1] = Except.ok r ∧
      Q.Eqv r.avg_holding_time
        (qmeanInt (holdingDiffs (btReplay dsA [0, 120000] [1, -1])))) ∧
    (simple_backtest dsA [0, 60000, 120000] [1, -1, 1] =
        Except.error "operands could not be broadcast together" ∨
      ∃ r, simple_backtest dsA [0, 60000, 120000] [1, -1, 1] = Except.ok r ∧
        ¬ Q.Eqv r.avg_holding_time
          (qmeanInt (holdingDiffs (btReplay dsA [0, 60000, 120000]
            [1, -1, 1])))) :=
  ⟨C10_avg_holding_time.1 dsA [0, 120000] [1, -1] (by decide) (by decide),
   C10_avg_holding_time.2 dsA [0, 60000, 120000] [1, -1, 1] (by decide)
     (by decide) rfl (by decide) (by decide) (by decide)⟩
